import Mathlib

/-!
Shallow embedding of the wireguard-overlay node reconciler
(`pkg/controllers/wireguardnode.go`): the peer cache, cache hydration,
self-annotation, and the per-notification `Reconcile` state machine.

Go maps that may be `nil` are modelled as `Option` of an association
list: reading a `nil` map yields the zero value, writing to a `nil` map
panics; a panic of the whole operation is modelled by an `Option`-valued
result (`none` = panic).
The wgctrl key parser (`wgtypes.ParseKey` followed by `Key.String()`
canonicalisation, an external library) is abstracted as a parameter
`parse : String → Option String` returning the canonical key string.
-/

namespace WgOverlay

/-- An association list with string keys, the building block for Go maps. -/
abbrev StrMap := List (String × String)

/-- Lookup in an association list (Go map read on a non-nil map). -/
def lookupList : StrMap → String → Option String
  | [], _ => none
  | (k, v) :: rest, x => if k = x then some v else lookupList rest x

/-- Insert/overwrite in an association list (Go map assignment on a non-nil map). -/
def insertList : StrMap → String → String → StrMap
  | [], k, v => [(k, v)]
  | (k', v') :: rest, k, v =>
    if k' = k then (k, v) :: rest else (k', v') :: insertList rest k v

/-- Removal from an association list (Go `delete` on a non-nil map). -/
def eraseList : StrMap → String → StrMap
  | [], _ => []
  | (k', v') :: rest, k =>
    if k' = k then eraseList rest k else (k', v') :: eraseList rest k

/-- The peer cache field `cache map[string]string`; `none` models a `nil` map
(the zero value of the `WireguardNodeReconciler` struct before hydration). -/
abbrev Cache := Option StrMap

/-- The `get` method: a read on a `nil` map is a miss. -/
def cget (c : Cache) (k : String) : Option String :=
  c.bind (fun l => lookupList l k)

/-- The `put` method: assignment into a `nil` map panics, modelled as `none`. -/
def cput (c : Cache) (k v : String) : Option Cache :=
  c.map (fun l => some (insertList l k v))

/-- The `del` method: `delete` on a `nil` map is a no-op in Go. -/
def cdel (c : Cache) (k : String) : Cache :=
  c.map (fun l => eraseList l k)

/-- `len` of the cache map; `len` of a `nil` map is `0` in Go. -/
def cacheLen (c : Cache) : Nat :=
  (c.map List.length).getD 0

/-- A host record (`v1.Node`): its name and its string-keyed metadata map.
`annotations = none` models a record whose metadata map is `nil`. -/
structure Node where
  name : String
  annotations : Option StrMap
deriving Repr, DecidableEq

/-- Modelled from the spec: the published overlay address metadata key
(`wireguard.IPAnnotationName`, defined in `pkg/wireguard`, which is not in
`src/`); the exact key name is a deployment convention. -/
def IPAnnotationName : String := "wireguard.io/ip"

/-- Modelled from the spec: the published overlay public key metadata key
(`wireguard.PublicKeyAnnotationName`, defined in `pkg/wireguard`, which is
not in `src/`); the exact key name is a deployment convention. -/
def PublicKeyAnnotationName : String := "wireguard.io/publickey"

/-- Read a metadata value as Go does: a missing key or a `nil` map yields `""`. -/
def annGet (m : Option StrMap) (k : String) : String :=
  (m.bind (fun l => lookupList l k)).getD ""

/-- A wireguard peer (`wgtypes.Peer` restricted to the fields the core
reads and writes): canonical public key string, allowed IPs, endpoint. -/
structure Peer where
  publicKey : String
  allowedIPs : List String
  endpoint : Option String
deriving Repr, DecidableEq

/-- The local overlay device (`wgtypes.Device` restricted to the fields the
core reads): interface name, own public key, current peer list. -/
structure Device where
  name : String
  publicKey : String
  peers : List Peer
deriving Repr, DecidableEq

/-- The reconciler's own configuration (`overlay.Config` restricted to the
fields the core reads): the local host's identity and its overlay address. -/
structure Config where
  nodeName : String
  overlayIP : String
deriving Repr, DecidableEq

/-- Modelled from the spec: `wireguard.FromNode` (defined in `pkg/wireguard`,
which is not in `src/`) derives the candidate peer from a host record's
metadata and fails exactly when no usable public key can be derived
(absent or malformed published public-key metadata). -/
def fromNode (parse : String → Option String) (n : Node) : Option Peer :=
  match parse (annGet n.annotations PublicKeyAnnotationName) with
  | none => none
  | some k =>
    some { publicKey := k
           allowedIPs := [annGet n.annotations IPAnnotationName]
           endpoint := none }

/-- Environment of `hydrateCache`: whether the membership client was
injected, and the result of listing all host records (`none` = list error). -/
structure HydrationEnv where
  clientSet : Bool
  listResult : Option (List Node)
deriving Repr, DecidableEq

/-- One iteration of the hydration loop body: insert the host's identity iff
its published public key is a currently known device peer key and non-empty. -/
def hydrateStep (known : List String) (acc : StrMap) (n : Node) : StrMap :=
  if annGet n.annotations PublicKeyAnnotationName ∈ known ∧
      annGet n.annotations PublicKeyAnnotationName ≠ "" then
    insertList acc n.name (annGet n.annotations PublicKeyAnnotationName)
  else acc

/-- The `hydrateCache` method: abort (cache untouched) when the client is
unset or the list query fails; otherwise rebuild the cache from scratch as
the intersection of published keys with the device's current peer keys. -/
def hydrateCache (env : HydrationEnv) (dev : Device) (c : Cache) : Cache :=
  if env.clientSet then
    match env.listResult with
    | none => c
    | some nodes =>
      some (nodes.foldl (hydrateStep (dev.peers.map Peer.publicKey)) [])
  else c

/-- Result of fetching the host record for the notified identity
(`r.Get`): found, not-found, or any other fetch error. -/
inductive FetchResult where
  | found (n : Node)
  | notFound
  | fetchFailed
deriving Repr, DecidableEq

/-- The error categories `Reconcile` can surface to its caller. -/
inductive RError where
  | fetchErr
  | parseErr
  | configErr
  | updateErr
deriving Repr, DecidableEq

/-- One `ConfigureDevice` invocation as issued by `ReconcilePeer`: the
single peer config entry it carries (public key and the `Remove` flag). -/
structure DeviceCall where
  publicKey : String
  remove : Bool
deriving Repr, DecidableEq

/-- External-world outcomes a single `Reconcile` run consults: the
hydration environment, the fetch result for the notified identity, whether
`ConfigureDevice` succeeds, and whether the record write-back succeeds. -/
structure ReconcileEnv where
  hyd : HydrationEnv
  fetch : FetchResult
  configureOk : Bool
  updateOk : Bool
deriving Repr, DecidableEq

/-- Everything observable about one `Reconcile` run: the returned error (or
success), the `Requeue` flag of the returned result, the cache afterwards,
the `ConfigureDevice` calls issued, and the record write-backs issued. -/
structure Outcome where
  err : Option RError
  requeue : Bool
  cache : Cache
  calls : List DeviceCall
  updates : List Node
deriving Repr, DecidableEq

/-- Result of one `Annotate` call on a record with a non-nil metadata map:
the `update` flag, the mutated record, and the returned error (the source
always returns a `nil` error). -/
structure AnnotateOut where
  update : Bool
  node : Node
  err : Option RError
deriving Repr, DecidableEq

/-- The `Annotate` method: compare the record's published overlay address
and public key with the real ones and write the real values into the
record's metadata map when they differ or are unset. Writing into a `nil`
metadata map panics (`none`); the first comparison always requests a write
when the map is `nil`, so a `nil` map always panics. -/
def annotate (cfg : Config) (dev : Device) (n : Node) : Option AnnotateOut :=
  match n.annotations with
  | none => none
  | some m =>
    let ipStep : Bool × StrMap :=
      match lookupList m IPAnnotationName with
      | none => (true, insertList m IPAnnotationName cfg.overlayIP)
      | some ip =>
        if ip = cfg.overlayIP then (false, m)
        else (true, insertList m IPAnnotationName cfg.overlayIP)
    let pubKey := dev.publicKey
    let keyStep : Bool × StrMap :=
      match lookupList ipStep.2 PublicKeyAnnotationName with
      | none => (true, insertList ipStep.2 PublicKeyAnnotationName pubKey)
      | some pub =>
        if pub = pubKey then (false, ipStep.2)
        else (true, insertList ipStep.2 PublicKeyAnnotationName pubKey)
    some { update := ipStep.1 || keyStep.1
           node := { n with annotations := some keyStep.2 }
           err := none }

/-- The `Reconcile` method, one notification keyed by `reqName`: hydrate if
the cache is empty, fetch the record, then dispatch on not-found / self /
remote exactly as the source does. `none` models a panic (a `put` into a
`nil` cache map, or `Annotate` on a `nil` metadata map). -/
def Reconcile (parse : String → Option String) (cfg : Config) (dev : Device)
    (env : ReconcileEnv) (reqName : String) (c₀ : Cache) : Option Outcome :=
  let c := if cacheLen c₀ = 0 then hydrateCache env.hyd dev c₀ else c₀
  match env.fetch with
  | .fetchFailed => some ⟨some .fetchErr, false, c, [], []⟩
  | .notFound =>
    match cget c reqName with
    | none => some ⟨none, false, c, [], []⟩
    | some pubKey =>
      match parse pubKey with
      | none => some ⟨some .parseErr, false, c, [], []⟩
      | some key =>
        if env.configureOk then
          some ⟨none, false, cdel c reqName, [⟨key, true⟩], []⟩
        else
          some ⟨some .configErr, false, c, [⟨key, true⟩], []⟩
  | .found node =>
    if node.name = cfg.nodeName then
      match annotate cfg dev node with
      | none => none
      | some out =>
        if out.update then
          if env.updateOk then
            some ⟨none, false, c, [], [out.node]⟩
          else
            some ⟨some .updateErr, true, c, [], [out.node]⟩
        else
          some ⟨none, false, c, [], []⟩
    else
      match fromNode parse node with
      | none => some ⟨none, false, c, [], []⟩
      | some peer =>
        if cget c node.name = some peer.publicKey then
          some ⟨none, false, c, [], []⟩
        else
          if env.configureOk then
            match cput c node.name peer.publicKey with
            | none => none
            | some c' => some ⟨none, false, c', [⟨peer.publicKey, false⟩], []⟩
          else
            some ⟨some .configErr, false, c, [⟨peer.publicKey, false⟩], []⟩

/-- A concrete stand-in for the external key parser used to instantiate the
theorems: accepts exactly the 4-character strings of these examples. -/
def demoParse (s : String) : Option String :=
  if s.length = 4 then some s else none

/-- Concrete reconciler configuration for instantiating the theorems. -/
def demoConfig : Config := ⟨"self", "10.0.0.9"⟩

/-- Concrete device with one configured peer `keyA`. -/
def demoDevice : Device := ⟨"wg0", "keyS", [⟨"keyA", [], none⟩]⟩

/-- Concrete remote host record publishing key `keyA`. -/
def demoNodeA : Node :=
  ⟨"A", some [(PublicKeyAnnotationName, "keyA"), (IPAnnotationName, "10.0.0.1")]⟩

/-- Concrete remote host record publishing key `keyB`: a rekey of `A`. -/
def demoNodeA2 : Node :=
  ⟨"A", some [(PublicKeyAnnotationName, "keyB"), (IPAnnotationName, "10.0.0.1")]⟩

/-- Concrete host record whose published public-key metadata is empty. -/
def demoNodeB : Node := ⟨"B", some [(PublicKeyAnnotationName, "")]⟩

/-- Concrete local host record with an initialised (empty) metadata map. -/
def demoNodeSelf : Node := ⟨"self", some []⟩

/-- Concrete local host record whose metadata map is nil. -/
def demoNodeSelfNil : Node := ⟨"self", none⟩

theorem lookupList_insert_self (l : StrMap) (k v : String) :
    lookupList (insertList l k v) k = some v := by
  induction l with
  | nil => simp [insertList, lookupList]
  | cons hd tl ih =>
    by_cases h : hd.1 = k <;> simp [insertList, lookupList, h, ih]

theorem lookupList_insert_ne (l : StrMap) {k x : String} (h : k ≠ x) (v : String) :
    lookupList (insertList l k v) x = lookupList l x := by
  induction l with
  | nil => simp [insertList, lookupList, h]
  | cons hd tl ih =>
    by_cases h' : hd.1 = k
    · simp [insertList, lookupList, h', h]
    · simp [insertList, lookupList, h', ih]

theorem lookupList_erase_self (l : StrMap) (k : String) :
    lookupList (eraseList l k) k = none := by
  induction l with
  | nil => simp [eraseList, lookupList]
  | cons hd tl ih =>
    by_cases h : hd.1 = k <;> simp [eraseList, lookupList, h, ih]

theorem cget_cdel_self (c : Cache) (k : String) : cget (cdel c k) k = none := by
  cases c with
  | none => rfl
  | some l => simp [cget, cdel, lookupList_erase_self]

theorem cacheLen_pos_of_cget (c : Cache) (k v : String) (h : cget c k = some v) :
    cacheLen c ≠ 0 := by
  cases c with
  | none => simp [cget] at h
  | some l =>
    cases l with
    | nil => simp [cget, lookupList] at h
    | cons hd tl => simp [cacheLen]

theorem lookupList_foldl_notmem (known : List String) (nodes : List Node)
    (acc : StrMap) (x : String) (h : x ∉ nodes.map Node.name) :
    lookupList (nodes.foldl (hydrateStep known) acc) x = lookupList acc x := by
  induction nodes generalizing acc with
  | nil => rfl
  | cons hd tl ih =>
    simp only [List.map_cons, List.mem_cons, not_or] at h
    rw [List.foldl_cons, ih _ h.2]
    by_cases hc : annGet hd.annotations PublicKeyAnnotationName ∈ known ∧
        annGet hd.annotations PublicKeyAnnotationName ≠ ""
    · simp [hydrateStep, hc, lookupList_insert_ne _ (Ne.symm h.1)]
    · simp [hydrateStep, hc]

theorem lookupList_foldl_mem (known : List String) (nodes : List Node)
    (acc : StrMap) (n : Node) (hnodup : (nodes.map Node.name).Nodup)
    (hmem : n ∈ nodes) :
    lookupList (nodes.foldl (hydrateStep known) acc) n.name =
      (if annGet n.annotations PublicKeyAnnotationName ∈ known ∧
          annGet n.annotations PublicKeyAnnotationName ≠ "" then
        some (annGet n.annotations PublicKeyAnnotationName)
      else lookupList acc n.name) := by
  induction nodes generalizing acc with
  | nil => exact absurd hmem (List.not_mem_nil n)
  | cons hd tl ih =>
    simp only [List.map_cons, List.nodup_cons] at hnodup
    rcases List.mem_cons.mp hmem with heq | htl
    · subst heq
      rw [List.foldl_cons, lookupList_foldl_notmem _ _ _ _ hnodup.1]
      by_cases hc : annGet n.annotations PublicKeyAnnotationName ∈ known ∧
          annGet n.annotations PublicKeyAnnotationName ≠ ""
      · simp [hydrateStep, hc, lookupList_insert_self]
      · simp [hydrateStep, hc]
    · have hne : hd.name ≠ n.name := by
        intro hcontra
        rw [hcontra] at hnodup
        exact hnodup.1 (List.mem_map_of_mem _ htl)
      have hstep : lookupList (hydrateStep known acc hd) n.name = lookupList acc n.name := by
        by_cases hc : annGet hd.annotations PublicKeyAnnotationName ∈ known ∧
            annGet hd.annotations PublicKeyAnnotationName ≠ ""
        · simp [hydrateStep, hc, lookupList_insert_ne _ hne]
        · simp [hydrateStep, hc]
      rw [List.foldl_cons, ih _ hnodup.2 htl, hstep]

/-- Claim C1: for every remote host whose cache entry equals the public key
derived from its current host record, processing a notification is a no-op:
no configure call is issued, the cache is unchanged, and the call returns
success. -/
theorem reconcile_cached_hit_noop (parse : String → Option String) (cfg : Config)
    (dev : Device) (env : ReconcileEnv) (node : Node) (c : Cache) (peer : Peer)
    (hfetch : env.fetch = .found node) (hremote : node.name ≠ cfg.nodeName)
    (hpeer : fromNode parse node = some peer)
    (hcache : cget c node.name = some peer.publicKey) :
    Reconcile parse cfg dev env node.name c = some ⟨none, false, c, [], []⟩ := by
  have hlen := cacheLen_pos_of_cget _ _ _ hcache
  simp [Reconcile, hfetch, hremote, hpeer, hcache, hlen]

theorem reconcile_cached_hit_noop_witness :
    Reconcile demoParse demoConfig demoDevice
        ⟨⟨false, none⟩, .found demoNodeA, true, true⟩ "A" (some [("A", "keyA")]) =
      some ⟨none, false, some [("A", "keyA")], [], []⟩ :=
  reconcile_cached_hit_noop demoParse demoConfig demoDevice
    ⟨⟨false, none⟩, .found demoNodeA, true, true⟩ demoNodeA (some [("A", "keyA")])
    ⟨"keyA", ["10.0.0.1"], none⟩ rfl (by decide) (by decide) (by decide)

/-- Claim C4: a remote host record from which no usable public key can be
derived produces no device call and no cache mutation, and the notification
returns success (no error). -/
theorem reconcile_unready_noop (parse : String → Option String) (cfg : Config)
    (dev : Device) (env : ReconcileEnv) (node : Node) (c : Cache)
    (hfetch : env.fetch = .found node) (hremote : node.name ≠ cfg.nodeName)
    (hbad : fromNode parse node = none) (hlen : cacheLen c ≠ 0) :
    Reconcile parse cfg dev env node.name c = some ⟨none, false, c, [], []⟩ := by
  simp [Reconcile, hfetch, hremote, hbad, hlen]

theorem reconcile_unready_noop_witness :
    Reconcile demoParse demoConfig demoDevice
        ⟨⟨false, none⟩, .found demoNodeB, true, true⟩ "B" (some [("A", "keyA")]) =
      some ⟨none, false, some [("A", "keyA")], [], []⟩ :=
  reconcile_unready_noop demoParse demoConfig demoDevice
    ⟨⟨false, none⟩, .found demoNodeB, true, true⟩ demoNodeB (some [("A", "keyA")])
    rfl (by decide) (by decide) (by decide)

/-- Claim C8: on the not-found branch a cached value that cannot be parsed
as a public key makes the notification return an error, with no device call
issued and the corrupt cache entry left in place. -/
theorem reconcile_corrupt_cache_error (parse : String → Option String)
    (cfg : Config) (dev : Device) (env : ReconcileEnv) (reqName : String)
    (c : Cache) (pk : String) (hfetch : env.fetch = .notFound)
    (hc : cget c reqName = some pk) (hparse : parse pk = none) :
    Reconcile parse cfg dev env reqName c =
      some ⟨some .parseErr, false, c, [], []⟩ := by
  have hlen := cacheLen_pos_of_cget _ _ _ hc
  simp [Reconcile, hfetch, hc, hparse, hlen]

theorem reconcile_corrupt_cache_error_witness :
    Reconcile demoParse demoConfig demoDevice
        ⟨⟨false, none⟩, .notFound, true, true⟩ "A" (some [("A", "badkey!!")]) =
      some ⟨some .parseErr, false, some [("A", "badkey!!")], [], []⟩ :=
  reconcile_corrupt_cache_error demoParse demoConfig demoDevice
    ⟨⟨false, none⟩, .notFound, true, true⟩ "A" (some [("A", "badkey!!")])
    "badkey!!" rfl (by decide) (by decide)

/-- Claim C5: a remote host cached under key `K1` whose record now yields a
candidate peer with a different key `K2` produces exactly one configure call
carrying `K2`, and on success the cache entry is overwritten to `K2`. -/
theorem reconcile_rekey (parse : String → Option String) (cfg : Config)
    (dev : Device) (env : ReconcileEnv) (node : Node) (l : StrMap)
    (peer : Peer) (k1 : String) (hfetch : env.fetch = .found node)
    (hremote : node.name ≠ cfg.nodeName) (hpeer : fromNode parse node = some peer)
    (hc1 : lookupList l node.name = some k1) (hne : k1 ≠ peer.publicKey)
    (hok : env.configureOk = true) :
    Reconcile parse cfg dev env node.name (some l) =
      some ⟨none, false, some (insertList l node.name peer.publicKey),
        [⟨peer.publicKey, false⟩], []⟩ ∧
    cget (some (insertList l node.name peer.publicKey)) node.name =
      some peer.publicKey := by
  have hget : cget (some l) node.name = some k1 := by simp [cget, hc1]
  have hlen := cacheLen_pos_of_cget _ _ _ hget
  refine ⟨?_, by simp [cget, lookupList_insert_self]⟩
  simp [Reconcile, hfetch, hremote, hpeer, hget, hne, hok, hlen, cput]

theorem reconcile_rekey_witness :
    Reconcile demoParse demoConfig demoDevice
        ⟨⟨false, none⟩, .found demoNodeA2, true, true⟩ "A" (some [("A", "keyA")]) =
      some ⟨none, false, some [("A", "keyB")],
        [⟨"keyB", false⟩], []⟩ ∧
    cget (some (insertList [("A", "keyA")] "A" "keyB")) "A" = some "keyB" :=
  reconcile_rekey demoParse demoConfig demoDevice
    ⟨⟨false, none⟩, .found demoNodeA2, true, true⟩ demoNodeA2 [("A", "keyA")]
    ⟨"keyB", ["10.0.0.1"], none⟩ "keyA" rfl (by decide) (by decide) (by decide)
    (by decide) (by decide)

theorem cget_hydrate_none (env : HydrationEnv) (dev : Device) (c : Cache)
    (x : String) (hc : cget c x = none)
    (hl : ∀ nodes, env.listResult = some nodes → x ∉ nodes.map Node.name) :
    cget (hydrateCache env dev c) x = none := by
  unfold hydrateCache
  split
  · cases hls : env.listResult with
    | none => simpa [hls] using hc
    | some nodes =>
      simp only [hls, cget, Option.some_bind]
      rw [lookupList_foldl_notmem _ _ _ _ (hl nodes hls)]
      rfl
  · exact hc

/-- Claim C2: a not-found notification for an identity with a parsable cache
entry issues exactly one remove call for that key and deletes the cache
entry on success; a subsequent not-found notification for the same identity
(entry now absent, and the identity absent from any membership listing)
issues no device call and returns success. -/
theorem reconcile_notfound_remove_then_noop (parse : String → Option String)
    (cfg : Config) (dev : Device) (env env₂ : ReconcileEnv) (reqName : String)
    (c c₂ : Cache) (pk key : String)
    (hfetch : env.fetch = .notFound) (hok : env.configureOk = true)
    (hc : cget c reqName = some pk) (hparse : parse pk = some key)
    (hfetch2 : env₂.fetch = .notFound) (hc2 : cget c₂ reqName = none)
    (hhyd2 : ∀ nodes, env₂.hyd.listResult = some nodes →
      reqName ∉ nodes.map Node.name) :
    Reconcile parse cfg dev env reqName c =
      some ⟨none, false, cdel c reqName, [⟨key, true⟩], []⟩ ∧
    cget (cdel c reqName) reqName = none ∧
    (∃ o, Reconcile parse cfg dev env₂ reqName c₂ = some o ∧
      o.err = none ∧ o.calls = []) := by
  refine ⟨?_, cget_cdel_self c reqName, ?_⟩
  · have hlen := cacheLen_pos_of_cget _ _ _ hc
    simp [Reconcile, hfetch, hok, hc, hparse, hlen]
  · have hcp : cget (if cacheLen c₂ = 0 then hydrateCache env₂.hyd dev c₂ else c₂)
        reqName = none := by
      split
      · exact cget_hydrate_none _ _ _ _ hc2 hhyd2
      · exact hc2
    refine ⟨⟨none, false,
      if cacheLen c₂ = 0 then hydrateCache env₂.hyd dev c₂ else c₂, [], []⟩,
      ?_, rfl, rfl⟩
    simp [Reconcile, hfetch2, hcp]

theorem reconcile_notfound_remove_then_noop_witness :
    Reconcile demoParse demoConfig demoDevice
        ⟨⟨false, none⟩, .notFound, true, true⟩ "A"
        (some [("A", "keyA"), ("X", "keyX")]) =
      some ⟨none, false, some [("X", "keyX")], [⟨"keyA", true⟩], []⟩ ∧
    cget (cdel (some [("A", "keyA"), ("X", "keyX")]) "A") "A" = none ∧
    (∃ o, Reconcile demoParse demoConfig demoDevice
        ⟨⟨false, none⟩, .notFound, true, true⟩ "A" (some [("X", "keyX")]) =
          some o ∧ o.err = none ∧ o.calls = []) :=
  reconcile_notfound_remove_then_noop demoParse demoConfig demoDevice
    ⟨⟨false, none⟩, .notFound, true, true⟩ ⟨⟨false, none⟩, .notFound, true, true⟩
    "A" (some [("A", "keyA"), ("X", "keyX")]) (some [("X", "keyX")])
    "keyA" "keyA" rfl rfl (by decide) (by decide) rfl (by decide)
    (fun nodes h => Option.noConfusion h)

/-- Claim C3: after a successful hydration run, for every host in the
membership list the cache has an entry for it iff its published public-key
metadata is non-empty and equals the key of some peer currently on the
device, and the entry's value is that key. -/
theorem hydrateCache_sound (env : HydrationEnv) (dev : Device) (c : Cache)
    (nodes : List Node) (n : Node) (k : String)
    (hcl : env.clientSet = true) (hls : env.listResult = some nodes)
    (hnodup : (nodes.map Node.name).Nodup) (hmem : n ∈ nodes) :
    cget (hydrateCache env dev c) n.name = some k ↔
      (k = annGet n.annotations PublicKeyAnnotationName ∧ k ≠ "" ∧
        k ∈ dev.peers.map Peer.publicKey) := by
  simp only [hydrateCache, hcl, hls, if_true, cget, Option.some_bind]
  rw [lookupList_foldl_mem _ _ _ _ hnodup hmem]
  by_cases hc : annGet n.annotations PublicKeyAnnotationName ∈
      dev.peers.map Peer.publicKey ∧
      annGet n.annotations PublicKeyAnnotationName ≠ ""
  · rw [if_pos hc]
    simp only [Option.some.injEq]
    constructor
    · intro h
      subst h
      exact ⟨rfl, hc.2, hc.1⟩
    · intro h
      exact h.1.symm
  · rw [if_neg hc]
    simp only [lookupList]
    constructor
    · intro h
      exact Option.noConfusion h
    · intro h
      exact absurd ⟨h.1 ▸ h.2.2, h.1 ▸ h.2.1⟩ hc

theorem hydrateCache_sound_witness :
    (cget (hydrateCache ⟨true, some [demoNodeA, demoNodeB]⟩ demoDevice none)
        "A" = some "keyA" ↔
      ("keyA" = annGet demoNodeA.annotations PublicKeyAnnotationName ∧
        "keyA" ≠ "" ∧ "keyA" ∈ demoDevice.peers.map Peer.publicKey)) :=
  hydrateCache_sound ⟨true, some [demoNodeA, demoNodeB]⟩ demoDevice none
    [demoNodeA, demoNodeB] demoNodeA "keyA" rfl rfl (by decide) (by decide)

/-- Claim C6: a found notification for the local host's own identity issues
no device call and leaves the peer cache exactly as it was (stated for a
non-empty cache, where lazy hydration is not re-triggered); only
self-annotation and a possible record write-back occur. -/
theorem reconcile_self_frame (parse : String → Option String) (cfg : Config)
    (dev : Device) (env : ReconcileEnv) (node : Node) (c : Cache) (o : Outcome)
    (hfetch : env.fetch = .found node) (hself : node.name = cfg.nodeName)
    (hlen : cacheLen c ≠ 0)
    (hres : Reconcile parse cfg dev env node.name c = some o) :
    o.calls = [] ∧ o.cache = c := by
  rcases hann : annotate cfg dev node with _ | out
  · have hnone : Reconcile parse cfg dev env node.name c = none := by
      simp [Reconcile, hfetch, hself, hlen, hann]
    rw [hnone] at hres
    exact Option.noConfusion hres
  · rcases hupd : out.update with _ | _
    · have hx : Reconcile parse cfg dev env node.name c =
          some ⟨none, false, c, [], []⟩ := by
        simp [Reconcile, hfetch, hself, hlen, hann, hupd]
      rw [hx] at hres
      injection hres with h
      subst h
      exact ⟨rfl, rfl⟩
    · rcases huo : env.updateOk with _ | _
      · have hx : Reconcile parse cfg dev env node.name c =
            some ⟨some .updateErr, true, c, [], [out.node]⟩ := by
          simp [Reconcile, hfetch, hself, hlen, hann, hupd, huo]
        rw [hx] at hres
        injection hres with h
        subst h
        exact ⟨rfl, rfl⟩
      · have hx : Reconcile parse cfg dev env node.name c =
            some ⟨none, false, c, [], [out.node]⟩ := by
          simp [Reconcile, hfetch, hself, hlen, hann, hupd, huo]
        rw [hx] at hres
        injection hres with h
        subst h
        exact ⟨rfl, rfl⟩

theorem reconcile_self_frame_witness :
    (⟨none, false, some [("A", "keyA")], [],
      [⟨"self", some [(IPAnnotationName, "10.0.0.9"),
        (PublicKeyAnnotationName, "keyS")]⟩]⟩ : Outcome).calls = [] ∧
    (⟨none, false, some [("A", "keyA")], [],
      [⟨"self", some [(IPAnnotationName, "10.0.0.9"),
        (PublicKeyAnnotationName, "keyS")]⟩]⟩ : Outcome).cache =
      some [("A", "keyA")] :=
  reconcile_self_frame demoParse demoConfig demoDevice
    ⟨⟨false, none⟩, .found demoNodeSelf, true, true⟩ demoNodeSelf
    (some [("A", "keyA")]) _ rfl rfl (by decide) (by decide)

/-- Claim C7: whenever the configure call fails — the add/update on the
found branch or the remove on the not-found branch — the error is returned
and the cache is exactly as before the call (stated for a non-empty cache,
where lazy hydration is not re-triggered). -/
theorem reconcile_configure_failure_frame (parse : String → Option String)
    (cfg : Config) (dev : Device) (env : ReconcileEnv) (reqName : String)
    (c : Cache) (o : Outcome) (hfail : env.configureOk = false)
    (hlen : cacheLen c ≠ 0)
    (hres : Reconcile parse cfg dev env reqName c = some o) :
    o.cache = c ∧ (o.calls ≠ [] → o.err = some .configErr) := by
  rcases hf : env.fetch with node | _ | _
  · by_cases hself : node.name = cfg.nodeName
    · rcases hann : annotate cfg dev node with _ | out
      · have hnone : Reconcile parse cfg dev env reqName c = none := by
          simp [Reconcile, hf, hself, hlen, hann]
        rw [hnone] at hres
        exact Option.noConfusion hres
      · rcases hupd : out.update with _ | _
        · have hx : Reconcile parse cfg dev env reqName c =
              some ⟨none, false, c, [], []⟩ := by
            simp [Reconcile, hf, hself, hlen, hann, hupd]
          rw [hx] at hres
          injection hres with h
          subst h
          exact ⟨rfl, fun hcon => absurd rfl hcon⟩
        · rcases huo : env.updateOk with _ | _
          · have hx : Reconcile parse cfg dev env reqName c =
                some ⟨some .updateErr, true, c, [], [out.node]⟩ := by
              simp [Reconcile, hf, hself, hlen, hann, hupd, huo]
            rw [hx] at hres
            injection hres with h
            subst h
            exact ⟨rfl, fun hcon => absurd rfl hcon⟩
          · have hx : Reconcile parse cfg dev env reqName c =
                some ⟨none, false, c, [], [out.node]⟩ := by
              simp [Reconcile, hf, hself, hlen, hann, hupd, huo]
            rw [hx] at hres
            injection hres with h
            subst h
            exact ⟨rfl, fun hcon => absurd rfl hcon⟩
    · rcases hfn : fromNode parse node with _ | peer
      · have hx : Reconcile parse cfg dev env reqName c =
            some ⟨none, false, c, [], []⟩ := by
          simp [Reconcile, hf, hself, hlen, hfn]
        rw [hx] at hres
        injection hres with h
        subst h
        exact ⟨rfl, fun hcon => absurd rfl hcon⟩
      · by_cases hhit : cget c node.name = some peer.publicKey
        · have hx : Reconcile parse cfg dev env reqName c =
              some ⟨none, false, c, [], []⟩ := by
            simp [Reconcile, hf, hself, hlen, hfn, hhit]
          rw [hx] at hres
          injection hres with h
          subst h
          exact ⟨rfl, fun hcon => absurd rfl hcon⟩
        · have hx : Reconcile parse cfg dev env reqName c =
              some ⟨some .configErr, false, c, [⟨peer.publicKey, false⟩], []⟩ := by
            simp [Reconcile, hf, hself, hlen, hfn, hhit, hfail]
          rw [hx] at hres
          injection hres with h
          subst h
          exact ⟨rfl, fun _ => rfl⟩
  · rcases hcg : cget c reqName with _ | pk
    · have hx : Reconcile parse cfg dev env reqName c =
          some ⟨none, false, c, [], []⟩ := by
        simp [Reconcile, hf, hlen, hcg]
      rw [hx] at hres
      injection hres with h
      subst h
      exact ⟨rfl, fun hcon => absurd rfl hcon⟩
    · rcases hp : parse pk with _ | key
      · have hx : Reconcile parse cfg dev env reqName c =
            some ⟨some .parseErr, false, c, [], []⟩ := by
          simp [Reconcile, hf, hlen, hcg, hp]
        rw [hx] at hres
        injection hres with h
        subst h
        exact ⟨rfl, fun hcon => absurd rfl hcon⟩
      · have hx : Reconcile parse cfg dev env reqName c =
            some ⟨some .configErr, false, c, [⟨key, true⟩], []⟩ := by
          simp [Reconcile, hf, hlen, hcg, hp, hfail]
        rw [hx] at hres
        injection hres with h
        subst h
        exact ⟨rfl, fun _ => rfl⟩
  · have hx : Reconcile parse cfg dev env reqName c =
        some ⟨some .fetchErr, false, c, [], []⟩ := by
      simp [Reconcile, hf, hlen]
    rw [hx] at hres
    injection hres with h
    subst h
    exact ⟨rfl, fun hcon => absurd rfl hcon⟩

theorem reconcile_configure_failure_frame_witness :
    (⟨some .configErr, false, some [("A", "keyA")], [⟨"keyA", true⟩],
      []⟩ : Outcome).cache = some [("A", "keyA")] ∧
    ((⟨some .configErr, false, some [("A", "keyA")], [⟨"keyA", true⟩],
      []⟩ : Outcome).calls ≠ [] →
      (⟨some .configErr, false, some [("A", "keyA")], [⟨"keyA", true⟩],
        []⟩ : Outcome).err = some .configErr) :=
  reconcile_configure_failure_frame demoParse demoConfig demoDevice
    ⟨⟨false, none⟩, .notFound, false, true⟩ "A" (some [("A", "keyA")]) _
    rfl (by decide) (by decide)

/-- Claim C9: when hydration has never succeeded (client unset or list
failing) and the cache map is still nil, a notification for a remote host
with a valid public key whose configure call succeeds faults on the cache
put (nil-map assignment panic) instead of returning an error. -/
theorem reconcile_nil_cache_panic (parse : String → Option String) (cfg : Config)
    (dev : Device) (env : ReconcileEnv) (node : Node) (peer : Peer)
    (hhyd : env.hyd.clientSet = false ∨ env.hyd.listResult = none)
    (hfetch : env.fetch = .found node) (hremote : node.name ≠ cfg.nodeName)
    (hpeer : fromNode parse node = some peer) (hok : env.configureOk = true) :
    Reconcile parse cfg dev env node.name none = none := by
  have hh : hydrateCache env.hyd dev none = none := by
    unfold hydrateCache
    rcases hhyd with h | h
    · simp [h]
    · rw [h]
      split <;> rfl
  simp [Reconcile, hh, hfetch, hremote, hpeer, hok, cget, cput, cacheLen]

theorem reconcile_nil_cache_panic_witness :
    Reconcile demoParse demoConfig demoDevice
        ⟨⟨false, none⟩, .found demoNodeA, true, true⟩ "A" none = none :=
  reconcile_nil_cache_panic demoParse demoConfig demoDevice
    ⟨⟨false, none⟩, .found demoNodeA, true, true⟩ demoNodeA
    ⟨"keyA", ["10.0.0.1"], none⟩ (Or.inl rfl) rfl (by decide) (by decide) rfl

/-- Claim C10: `Annotate` writes into the record's metadata map without a
nil check: a record whose metadata map is nil faults (nil-map assignment
panic), while a record with a non-nil map always returns a nil error. -/
theorem annotate_nil_map_panic (cfg : Config) (dev : Device) (n : Node) :
    (n.annotations = none → annotate cfg dev n = none) ∧
    (∀ m, n.annotations = some m →
      ∃ out, annotate cfg dev n = some out ∧ out.err = none) := by
  constructor
  · intro h
    simp [annotate, h]
  · intro m h
    simp only [annotate, h]
    exact ⟨_, rfl, rfl⟩

theorem annotate_nil_map_panic_witness :
    annotate demoConfig demoDevice demoNodeSelfNil = none ∧
    (∃ out, annotate demoConfig demoDevice demoNodeSelf = some out ∧
      out.err = none) :=
  ⟨(annotate_nil_map_panic demoConfig demoDevice demoNodeSelfNil).1 rfl,
   (annotate_nil_map_panic demoConfig demoDevice demoNodeSelf).2 [] rfl⟩

end WgOverlay
